import Mathlib

/-!
Verification of the o5m writer of the `vadeen_osm` repository.

The development shallowly embeds `src/osm_io/o5m/writer.rs` and the format
selection of `src/osm_io.rs`.  Byte strings are `List Nat` (each element a
byte value), Rust `u64` values are `Nat`, Rust `i64`/`i32` values are `Int`
(with the `as i32` truncating cast made explicit where the source performs
it).  The data model (`Node`, `Way`, `Relation`, `Meta`, ...) and the
`DeltaState` of the `o5m` module are not part of the provided sources; they
are modelled from the specification, as marked on each definition.
-/

set_option maxRecDepth 10000

namespace VadeenOsm

/-! ## Varint codec (writer.rs, `uvarint_to_bytes` / `varint_to_bytes`) -/

/-- Loop of `uvarint_to_bytes` (writer.rs lines 314-327).  The Rust `while`
loop is embedded with an explicit fuel argument; `uvarint_to_bytes` passes
`value + 1`, which never runs out because the loop divides `value` by 128 at
every step (see `uvarint_loop_congr`). -/
def uvarint_loop : Nat → Nat → List Nat
  | _, 0 => []
  | value, fuel + 1 =>
    if 0x7F < value then ((value &&& 0x7F) ||| 0x80) :: uvarint_loop (value >>> 7) fuel
    else if 0 < value then [value] else []

/-- Embedding of `uvarint_to_bytes` (writer.rs lines 314-327): most
significant bit of every byte tells whether more bytes follow; a value of
zero produces no bytes at all. -/
def uvarint_to_bytes (value : Nat) : List Nat :=
  uvarint_loop value (value + 1)

/-- Embedding of `varint_to_bytes` (writer.rs lines 332-356): same as
`uvarint_to_bytes` but the least significant bit of the first byte holds the
sign; a negative value is first replaced by `-value - 1`. -/
def varint_to_bytes (value : Int) : List Nat :=
  let sign_bit : Nat := if value < 0 then 0x01 else 0x00
  let mag : Nat := if value < 0 then (-value - 1).toNat else value.toNat
  let least_significant : Nat := ((mag <<< 1) &&& 0x7F) ||| sign_bit
  if 0x3F < mag then (least_significant ||| 0x80) :: uvarint_to_bytes (mag >>> 6)
  else [least_significant]

lemma shiftRight_seven_lt (value : Nat) (h : 0 < value) : value >>> 7 < value := by
  rw [Nat.shiftRight_eq_div_pow]
  exact Nat.div_lt_self h (by norm_num)

lemma uvarint_loop_congr (value : Nat) : ∀ f g, value < f → value < g →
    uvarint_loop value f = uvarint_loop value g := by
  induction value using Nat.strong_induction_on with
  | _ value ih =>
    intro f g hf hg
    match f, g with
    | f + 1, g + 1 =>
      simp only [uvarint_loop]
      split
      · next hv =>
        have hlt : value >>> 7 < value := shiftRight_seven_lt value (by omega)
        exact congrArg _ (ih _ hlt f g (by omega) (by omega))
      · rfl

/-- Unfolding equation for `uvarint_to_bytes`, recovering the structure of
the Rust loop without the fuel argument. -/
lemma uvarint_unfold (value : Nat) :
    uvarint_to_bytes value =
      if 0x7F < value then ((value &&& 0x7F) ||| 0x80) :: uvarint_to_bytes (value >>> 7)
      else if 0 < value then [value] else [] := by
  show uvarint_loop value (value + 1) = _
  simp only [uvarint_loop]
  split
  · next hv =>
    have hlt : value >>> 7 < value := shiftRight_seven_lt value (by omega)
    exact congrArg _ (uvarint_loop_congr _ _ _ (by omega) (Nat.lt_succ_self _))
  · rfl

lemma and_0x7F_eq_mod (v : Nat) : v &&& 0x7F = v % 0x80 := by
  have h := Nat.and_pow_two_sub_one_eq_mod v 7
  norm_num at h
  exact h

lemma uvarint_ne_nil (v : Nat) (h : 0 < v) : uvarint_to_bytes v ≠ [] := by
  rw [uvarint_unfold]
  split <;> simp_all

lemma lor_lt_128_or_128 : ∀ a < 128, a ||| 128 = a + 128 := by decide

lemma uvarint_headI_ge_one (v : Nat) (h : 0 < v) : 1 ≤ (uvarint_to_bytes v).headI := by
  rw [uvarint_unfold]
  split
  · next hv =>
    have h127 : v &&& 0x7F < 128 := by rw [and_0x7F_eq_mod]; omega
    simp only [List.headI]
    rw [lor_lt_128_or_128 _ h127]
    omega
  · simpa using h

/-! ## Data model

Modelled from the spec, section 3: the map model lives in the crate root,
which is not among the provided sources; only its shape as described by the
spec is needed.  Strings are byte lists (Rust `str::bytes`). -/

/-- Modelled from the spec: `Coordinate: {lat: i32, lon: i32}` (section 3). -/
structure Coordinate where
  lat : Int
  lon : Int
deriving DecidableEq

/-- Modelled from the spec: `Boundary: {min: Coordinate, max: Coordinate}`. -/
structure Boundary where
  min : Coordinate
  max : Coordinate
deriving DecidableEq

/-- Modelled from the spec: a tag is a `(key, value)` string pair. -/
structure Tag where
  key : List Nat
  value : List Nat
deriving DecidableEq

/-- Modelled from the spec: `AuthorInformation: {created: i64, change_set:
u64, uid: u64, user: String}` (section 3). -/
structure AuthorInformation where
  created : Int
  change_set : Nat
  uid : Nat
  user : List Nat
deriving DecidableEq

/-- Modelled from the spec: `Meta: {tags, version: optional u64, author:
optional AuthorInformation}` (section 3).  The writer reads `meta.version as
u64`; an absent version is encoded as the value 0, whose unsigned varint is
empty, which together with the fixed timestamp zero byte realises the
spec's "single zero byte" for a missing version. -/
structure Meta where
  tags : List Tag
  version : Option Nat
  author : Option AuthorInformation
deriving DecidableEq

/-- Modelled from the spec: `Node: {id: i64, coordinate, meta}`. -/
structure Node where
  id : Int
  coordinate : Coordinate
  meta : Meta
deriving DecidableEq

/-- Modelled from the spec: `Way: {id: i64, refs: sequence of i64, meta}`. -/
structure Way where
  id : Int
  refs : List Int
  meta : Meta
deriving DecidableEq

/-- Modelled from the spec: `RelationMember` is a tagged union over
{Node, Way, Relation}, each carrying `(id: i64, role: String)`. -/
inductive RelationMember where
  | Node (id : Int) (role : List Nat)
  | Way (id : Int) (role : List Nat)
  | Relation (id : Int) (role : List Nat)
deriving DecidableEq

/-- Role of a relation member (`m.role()` in the source). -/
def RelationMember.role : RelationMember → List Nat
  | .Node _ role => role
  | .Way _ role => role
  | .Relation _ role => role

/-- Modelled from the spec: `Relation: {id: i64, members, meta}`. -/
structure Relation where
  id : Int
  members : List RelationMember
  meta : Meta
deriving DecidableEq

/-- Modelled from the spec: `Map: {boundary: optional Boundary, nodes, ways,
relations}` (the crate calls this type `Osm`). -/
structure Osm where
  boundary : Option Boundary
  nodes : List Node
  ways : List Way
  relations : List Relation

/-! ## Delta state

The `Delta` category enum and `DeltaState` live in the `o5m` module, which
is not among the provided sources; both are modelled from the spec
(sections 3 and 4.2). -/

/-- Modelled from the spec: the fixed set of delta categories (section 3). -/
inductive Delta where
  | Id | Lat | Lon | Timestamp | ChangeSet | WayRef | RelNodeRef | RelWayRef | RelRelRef
deriving DecidableEq

/-- Modelled from the spec: the per-category running values, all zero at
construction and after a reset (section 4.2: nine category slots). -/
structure DeltaState where
  id : Int
  lat : Int
  lon : Int
  timestamp : Int
  changeSet : Int
  wayRef : Int
  relNodeRef : Int
  relWayRef : Int
  relRelRef : Int
deriving DecidableEq

/-- Fresh delta state: all nine slots zero. -/
def DeltaState.new : DeltaState :=
  { id := 0, lat := 0, lon := 0, timestamp := 0, changeSet := 0, wayRef := 0,
    relNodeRef := 0, relWayRef := 0, relRelRef := 0 }

/-- Running value currently stored for a category. -/
def DeltaState.get (d : DeltaState) : Delta → Int
  | .Id => d.id
  | .Lat => d.lat
  | .Lon => d.lon
  | .Timestamp => d.timestamp
  | .ChangeSet => d.changeSet
  | .WayRef => d.wayRef
  | .RelNodeRef => d.relNodeRef
  | .RelWayRef => d.relWayRef
  | .RelRelRef => d.relRelRef

/-- Store a new running value for a category. -/
def DeltaState.set (d : DeltaState) (cat : Delta) (value : Int) : DeltaState :=
  match cat with
  | .Id => { d with id := value }
  | .Lat => { d with lat := value }
  | .Lon => { d with lon := value }
  | .Timestamp => { d with timestamp := value }
  | .ChangeSet => { d with changeSet := value }
  | .WayRef => { d with wayRef := value }
  | .RelNodeRef => { d with relNodeRef := value }
  | .RelWayRef => { d with relWayRef := value }
  | .RelRelRef => { d with relRelRef := value }

/-- Modelled from the spec (section 4.2): `encode(category, absolute_value)`
returns `absolute_value - previous(category)` and updates
`previous(category) := absolute_value`. -/
def DeltaState.encode (d : DeltaState) (cat : Delta) (value : Int) : Int × DeltaState :=
  (value - d.get cat, d.set cat value)

/-! ## Entity encoder (writer.rs, `O5mEncoder`) -/

/-- Embedding of `O5mEncoder` (writer.rs lines 22-26): string reference
table plus delta state.  The `VecDeque` is a list whose head is the front
(most recent insertion). -/
structure O5mEncoder where
  string_table : List (List Nat)
  delta : DeltaState
deriving DecidableEq

/-- Embedding of `O5mEncoder::new` (writer.rs lines 124-129). -/
def O5mEncoder.new : O5mEncoder :=
  { string_table := [], delta := DeltaState.new }

/-- Embedding of `O5mEncoder::reset` (writer.rs lines 132-135): clears the
string reference table and all deltas. -/
def O5mEncoder.reset (_ : O5mEncoder) : O5mEncoder :=
  { string_table := [], delta := DeltaState.new }

/-- Embedding of `self.string_table.iter().position(|b| b == &bytes)`:
index of the first entry equal to `bytes`, scanning from the front. -/
def position (bytes : List Nat) : List (List Nat) → Option Nat
  | [] => none
  | b :: bs => if b = bytes then some 0 else (position bytes bs).map (· + 1)

/-- Embedding of `O5mEncoder::string_reference_table` (writer.rs lines
260-267): returns the unsigned varint of `1 + position` when the byte
string is already in the table, otherwise pushes it to the front and
returns it unchanged.  The source never evicts anything (the 15000 limit is
an unimplemented `TODO` at line 259). -/
def string_reference_table (bytes : List Nat) (e : O5mEncoder) : List Nat × O5mEncoder :=
  match position bytes e.string_table with
  | some pos => (uvarint_to_bytes (1 + pos), e)
  | none => (bytes, { e with string_table := bytes :: e.string_table })

/-- Embedding of `O5mEncoder::string_pair_to_bytes` (writer.rs lines
234-252): `0x00 key 0x00 value 0x00`, passed through the reference table
only when `key.len() + value.len()` is at most 250. -/
def string_pair_to_bytes (key value : List Nat) (e : O5mEncoder) : List Nat × O5mEncoder :=
  let bytes := [0x00] ++ key ++ [0x00] ++ value ++ [0x00]
  if 250 < key.length + value.length then (bytes, e)
  else string_reference_table bytes e

/-- Embedding of `O5mEncoder::user_to_bytes` (writer.rs lines 271-283):
`0x00 uvarint(uid) 0x00 username 0x00`, always passed through the
reference table (no length check in the source). -/
def user_to_bytes (uid : Nat) (username : List Nat) (e : O5mEncoder) : List Nat × O5mEncoder :=
  let bytes := [0x00] ++ uvarint_to_bytes uid ++ [0x00] ++ username ++ [0x00]
  string_reference_table bytes e

/-- Embedding of the `for tag in &meta.tags` loops of `node_to_bytes`,
`way_to_bytes` and `relation_to_bytes`: the tag tokens in order, threading
the encoder state. -/
def string_pairs_to_bytes : List Tag → O5mEncoder → List Nat × O5mEncoder
  | [], e => ([], e)
  | t :: ts, e =>
    let tok := string_pair_to_bytes t.key t.value e
    let rest := string_pairs_to_bytes ts tok.2
    (tok.1 ++ rest.1, rest.2)

/-- Rust `as i32` truncating cast: reduce an `i64` value into the `i32`
range by two's-complement wrap-around. -/
def wrapI32 (value : Int) : Int :=
  (value + 0x80000000) % 0x100000000 - 0x80000000

/-- Embedding of `O5mEncoder::delta_coordinate` (writer.rs lines 294-299):
delta-encodes latitude then longitude and casts each `i64` delta back to
`i32` (`as i32` in the source, hence the wrap). -/
def delta_coordinate (e : O5mEncoder) (coordinate : Coordinate) : Coordinate × O5mEncoder :=
  let lat := e.delta.encode .Lat coordinate.lat
  let lon := (lat.2).encode .Lon coordinate.lon
  ({ lat := wrapI32 lat.1, lon := wrapI32 lon.1 }, { e with delta := lon.2 })

/-- Embedding of `O5mEncoder::delta_rel_member` (writer.rs lines 286-292):
the delta category depends on the member kind. -/
def delta_rel_member (m : RelationMember) (e : O5mEncoder) : Int × O5mEncoder :=
  match m with
  | .Node id _ =>
    let r := e.delta.encode .RelNodeRef id
    (r.1, { e with delta := r.2 })
  | .Way id _ =>
    let r := e.delta.encode .RelWayRef id
    (r.1, { e with delta := r.2 })
  | .Relation id _ =>
    let r := e.delta.encode .RelRelRef id
    (r.1, { e with delta := r.2 })

/-- Embedding of `member_type` (writer.rs lines 303-309): the strings "0",
"1", "2" as their single byte (0x30, 0x31, 0x32). -/
def member_type : RelationMember → List Nat
  | .Node _ _ => [0x30]
  | .Way _ _ => [0x31]
  | .Relation _ _ => [0x32]

/-- Embedding of `O5mEncoder::node_to_bytes` (writer.rs lines 139-155):
delta id, version varint, the fixed zero timestamp byte, delta longitude
then latitude, then the tag tokens.  The author information of the meta is
never read by the source (`user_to_bytes` is dead code there). -/
def node_to_bytes (node : Node) (e : O5mEncoder) : List Nat × O5mEncoder :=
  let delta_id := e.delta.encode .Id node.id
  let dc := delta_coordinate { e with delta := delta_id.2 } node.coordinate
  let bytes := varint_to_bytes delta_id.1
    ++ uvarint_to_bytes (node.meta.version.getD 0)
    ++ [0x00]
    ++ varint_to_bytes dc.1.lon
    ++ varint_to_bytes dc.1.lat
  let tags := string_pairs_to_bytes node.meta.tags dc.2
  (bytes ++ tags.1, tags.2)

/-- Embedding of `O5mEncoder::way_refs_to_bytes` (writer.rs lines 178-185):
each ref delta-encoded against the same running `WayRef` value. -/
def way_refs_to_bytes : List Int → O5mEncoder → List Nat × O5mEncoder
  | [], e => ([], e)
  | r :: rs, e =>
    let d := e.delta.encode .WayRef r
    let rest := way_refs_to_bytes rs { e with delta := d.2 }
    (varint_to_bytes d.1 ++ rest.1, rest.2)

/-- Embedding of `O5mEncoder::way_to_bytes` (writer.rs lines 159-175). -/
def way_to_bytes (way : Way) (e : O5mEncoder) : List Nat × O5mEncoder :=
  let delta_id := e.delta.encode .Id way.id
  let refs := way_refs_to_bytes way.refs { e with delta := delta_id.2 }
  let bytes := varint_to_bytes delta_id.1
    ++ uvarint_to_bytes (way.meta.version.getD 0)
    ++ [0x00]
    ++ uvarint_to_bytes refs.1.length
    ++ refs.1
  let tags := string_pairs_to_bytes way.meta.tags refs.2
  (bytes ++ tags.1, tags.2)

/-- Embedding of `O5mEncoder::rel_members_to_bytes` (writer.rs lines
208-226): per member, the delta-encoded ref id followed by
`0x00 type_digit role 0x00` written literally (the source does not pass the
role token through the string reference table). -/
def rel_members_to_bytes : List RelationMember → O5mEncoder → List Nat × O5mEncoder
  | [], e => ([], e)
  | m :: ms, e =>
    let d := delta_rel_member m e
    let entry := varint_to_bytes d.1 ++ [0x00] ++ member_type m ++ m.role ++ [0x00]
    let rest := rel_members_to_bytes ms d.2
    (entry ++ rest.1, rest.2)

/-- Embedding of `O5mEncoder::relation_to_bytes` (writer.rs lines 189-205). -/
def relation_to_bytes (rel : Relation) (e : O5mEncoder) : List Nat × O5mEncoder :=
  let delta_id := e.delta.encode .Id rel.id
  let members := rel_members_to_bytes rel.members { e with delta := delta_id.2 }
  let bytes := varint_to_bytes delta_id.1
    ++ uvarint_to_bytes (rel.meta.version.getD 0)
    ++ [0x00]
    ++ uvarint_to_bytes members.1.length
    ++ members.1
  let tags := string_pairs_to_bytes rel.meta.tags members.2
  (bytes ++ tags.1, tags.2)

/-! ## Frame codec (writer.rs, `O5mWriter`) -/

/-- Byte `0xFF`: reset marker (spec section 6 wire table). -/
def O5M_RESET : Nat := 0xFF

/-- Byte `0xE0`: header marker (spec section 6 wire table). -/
def O5M_HEADER : Nat := 0xE0

/-- Byte `0xDB`: bounding box record (spec section 6 wire table). -/
def O5M_BOUNDING_BOX : Nat := 0xDB

/-- Byte `0x10`: node record (spec section 6 wire table). -/
def O5M_NODE : Nat := 0x10

/-- Byte `0x11`: way record (spec section 6 wire table). -/
def O5M_WAY : Nat := 0x11

/-- Byte `0x12`: relation record (spec section 6 wire table). -/
def O5M_RELATION : Nat := 0x12

/-- Byte `0xFE`: end of file (spec section 6 wire table). -/
def O5M_EOF : Nat := 0xFE

/-- Modelled from the spec: the constant `O5M_HEADER_DATA` lives in the
`o5m` module, which is not among the provided sources; the spec only says
it is the fixed header payload identifying format/version (the o5m "o5m2"
tag with its length prefix).  None of the claims depend on its value. -/
def O5M_HEADER_DATA : List Nat := [0x04, 0x6F, 0x35, 0x6D, 0x32]

/-- Embedding of `O5mWriter` (writer.rs lines 14-18) with the generic sink
`W` instantiated by an in-memory byte vector, as in the repository's own
tests: `inner` is the byte stream written so far. -/
structure O5mWriter where
  inner : List Nat
  encoder : O5mEncoder
deriving DecidableEq

/-- Embedding of `O5mWriter::new` over an empty sink. -/
def O5mWriter.new : O5mWriter :=
  { inner := [], encoder := O5mEncoder.new }

/-- Embedding of `O5mWriter::reset` (writer.rs lines 37-41): writes the
reset byte and resets the encoder. -/
def O5mWriter.reset (w : O5mWriter) : O5mWriter :=
  { inner := w.inner ++ [O5M_RESET], encoder := w.encoder.reset }

/-- Embedding of `O5mWriter::write_bounding_box` (writer.rs lines 44-56):
the four signed varints, framed by the type byte and the length varint. -/
def O5mWriter.write_bounding_box (w : O5mWriter) (boundary : Boundary) : O5mWriter :=
  let bytes := varint_to_bytes boundary.min.lon ++ varint_to_bytes boundary.min.lat
    ++ varint_to_bytes boundary.max.lon ++ varint_to_bytes boundary.max.lat
  { w with inner := w.inner ++ [O5M_BOUNDING_BOX] ++ uvarint_to_bytes bytes.length ++ bytes }

/-- Embedding of `O5mWriter::write_node` (writer.rs lines 59-66): type byte,
unsigned varint body length, body. -/
def O5mWriter.write_node (w : O5mWriter) (node : Node) : O5mWriter :=
  let r := node_to_bytes node w.encoder
  { inner := w.inner ++ [O5M_NODE] ++ uvarint_to_bytes r.1.length ++ r.1, encoder := r.2 }

/-- Embedding of `O5mWriter::write_way` (writer.rs lines 69-76). -/
def O5mWriter.write_way (w : O5mWriter) (way : Way) : O5mWriter :=
  let r := way_to_bytes way w.encoder
  { inner := w.inner ++ [O5M_WAY] ++ uvarint_to_bytes r.1.length ++ r.1, encoder := r.2 }

/-- Embedding of `O5mWriter::write_relation` (writer.rs lines 79-86). -/
def O5mWriter.write_relation (w : O5mWriter) (rel : Relation) : O5mWriter :=
  let r := relation_to_bytes rel w.encoder
  { inner := w.inner ++ [O5M_RELATION] ++ uvarint_to_bytes r.1.length ++ r.1, encoder := r.2 }

/-- Embedding of `OsmWriter::write` for `O5mWriter` (writer.rs lines
90-116): reset, header, optional bounding box, then a reset before each of
the node, way and relation blocks, then the EOF byte.  Returns the final
contents of the sink (writes to the in-memory sink cannot fail). -/
def O5mWriter.write (osm : Osm) : List Nat :=
  let s1 := O5mWriter.new.reset
  let s2 := { s1 with inner := s1.inner ++ [O5M_HEADER] ++ O5M_HEADER_DATA }
  let s3 := match osm.boundary with
    | some boundary => s2.write_bounding_box boundary
    | none => s2
  let s4 := s3.reset
  let s5 := osm.nodes.foldl O5mWriter.write_node s4
  let s6 := s5.reset
  let s7 := osm.ways.foldl O5mWriter.write_way s6
  let s8 := s7.reset
  let s9 := osm.relations.foldl O5mWriter.write_relation s8
  s9.inner ++ [O5M_EOF]

/-! ## Closed-form description of the written stream (spec side, for C1) -/

/-- Closed form of one entity block, following the spec's frame description
(section 4.5): one `[type_byte][uvarint length][body]` frame per entity, in
order, threading the encoder state. -/
def frames_of (body : α → O5mEncoder → List Nat × O5mEncoder) (ty : Nat) :
    List α → O5mEncoder → List Nat × O5mEncoder
  | [], e => ([], e)
  | x :: xs, e =>
    let b := body x e
    let rest := frames_of body ty xs b.2
    ([ty] ++ uvarint_to_bytes b.1.length ++ b.1 ++ rest.1, rest.2)

/-- Closed form of the bounding box record, per spec section 6. -/
def bounding_box_record (boundary : Boundary) : List Nat :=
  let bytes := varint_to_bytes boundary.min.lon ++ varint_to_bytes boundary.min.lat
    ++ varint_to_bytes boundary.max.lon ++ varint_to_bytes boundary.max.lat
  [O5M_BOUNDING_BOX] ++ uvarint_to_bytes bytes.length ++ bytes

lemma foldl_write_frames (body : α → O5mEncoder → List Nat × O5mEncoder) (ty : Nat)
    (wr : O5mWriter → α → O5mWriter)
    (hwr : ∀ w x, wr w x =
      { inner := w.inner ++ [ty] ++ uvarint_to_bytes (body x w.encoder).1.length
          ++ (body x w.encoder).1,
        encoder := (body x w.encoder).2 }) :
    ∀ (l : List α) (w : O5mWriter),
      l.foldl wr w =
        { inner := w.inner ++ (frames_of body ty l w.encoder).1,
          encoder := (frames_of body ty l w.encoder).2 } := by
  intro l
  induction l with
  | nil => intro w; simp [frames_of]
  | cons x xs ih =>
    intro w
    simp only [List.foldl_cons, frames_of, ih, hwr]
    simp [List.append_assoc]

/-! ## Format selection (osm_io.rs, `FileFormat`) -/

/-- Embedding of `FileFormat` (osm_io.rs lines 66-70). -/
inductive FileFormat where
  | Xml
  | O5m
deriving DecidableEq

/-- Rust `{:?}` debug rendering of a string slice: the text in double
quotes (escaping is irrelevant for the inputs that occur here). -/
def rustDebug (s : String) : String := "\"" ++ s ++ "\""

/-- Embedding of `FileFormat::from` (osm_io.rs lines 106-113): only "osm"
and "o5m" are recognised. -/
def FileFormat.fromStr : String → Option FileFormat
  | "osm" => some FileFormat.Xml
  | "o5m" => some FileFormat.O5m
  | _ => none

/-- Embedding of `TryFrom<&str> for FileFormat` (osm_io.rs lines 115-125):
`FileFormat::from`, turning `None` into a descriptive error. -/
def FileFormat.try_from (value : String) : Except String FileFormat :=
  match FileFormat.fromStr value with
  | some format => .ok format
  | none => .error ("'" ++ rustDebug value ++ "' is not a valid osm file format")

/-- Modelled from the spec: `std::path::Path` is external to the
repository; format selection only looks at a path's optional extension
(`path.extension()` already decoded to UTF-8) plus its display text for the
error message. -/
structure PathModel where
  extension : Option String
  display : String

/-- Embedding of `TryFrom<&Path> for FileFormat` (osm_io.rs lines 135-146):
apply the string rule to the extension; fail with an unknown-format error
when there is no extension. -/
def FileFormat.try_from_path (path : PathModel) : Except String FileFormat :=
  match path.extension with
  | some ext => FileFormat.try_from ext
  | none => .error ("Unknown file format of '" ++ path.display ++ "'")

/-! ## Helper lemmas about the string reference table -/

lemma position_eq_none_of_not_mem (bytes : List Nat) :
    ∀ l : List (List Nat), bytes ∉ l → position bytes l = none := by
  intro l
  induction l with
  | nil => intro _; rfl
  | cons b bs ih =>
    intro h
    simp only [List.mem_cons, not_or] at h
    have hb : ¬b = bytes := fun hv => h.1 hv.symm
    simp [position, hb, ih h.2]

lemma position_lt_length (bytes : List Nat) :
    ∀ (l : List (List Nat)) (i : Nat), position bytes l = some i → i < l.length := by
  intro l
  induction l with
  | nil => intro i h; simp [position] at h
  | cons b bs ih =>
    intro i h
    simp only [position] at h
    split at h
    · simp only [Option.some.injEq] at h
      simp [List.length_cons]
      omega
    · rcases hpos : position bytes bs with _ | j
      · rw [hpos] at h; simp at h
      · rw [hpos] at h
        simp only [Option.map_some'] at h
        have := ih j hpos
        simp only [Option.some.injEq] at h
        simp [List.length_cons]
        omega

lemma string_reference_table_insert (bytes : List Nat) (e : O5mEncoder)
    (h : bytes ∉ e.string_table) :
    string_reference_table bytes e
      = (bytes, { e with string_table := bytes :: e.string_table }) := by
  unfold string_reference_table
  rw [position_eq_none_of_not_mem bytes e.string_table h]

/-! ## Claim C2: the concrete node scenario -/

/-- Node of the spec's concrete scenario (section 8): id 64, coordinate
{lat: -65, lon: 4}, the single tag ("oneway", "yes"), no version. -/
def c2_node : Node :=
  { id := 64, coordinate := { lat := -65, lon := 4 },
    meta := { tags := [{ key := [0x6F, 0x6E, 0x65, 0x77, 0x61, 0x79],
                         value := [0x79, 0x65, 0x73] }],
              version := none, author := none } }

/-- C2, counterexample: the claim states that `write_node` frames the
19-byte claim body with the length byte 0x13; the body produced for the "no
version" node has 18 bytes, so the written frame differs from the claimed
`0x10 0x13 body` stream. -/
theorem C2_frame_length_counterexample :
    (O5mWriter.write_node O5mWriter.new c2_node).inner
      ≠ [0x10, 0x13] ++ (node_to_bytes c2_node O5mEncoder.new).1 := by decide

/-- C2, amended: encoding the node with id 64, coordinate {lat: -65, lon:
4}, single tag ("oneway","yes") and no version through a fresh encoder
yields exactly the body bytes 80 01 00 08 81 01 00 6F 6E 65 77 61 79 00 79
65 73 00 (18 bytes), and `write_node` frames that body as the type byte
0x10 followed by the unsigned varint length 0x12 and those body bytes. -/
theorem C2_node_encoding_amended :
    (node_to_bytes c2_node O5mEncoder.new).1
      = [0x80, 0x01, 0x00, 0x08, 0x81, 0x01,
         0x00, 0x6F, 0x6E, 0x65, 0x77, 0x61, 0x79, 0x00, 0x79, 0x65, 0x73, 0x00]
    ∧ (O5mWriter.write_node O5mWriter.new c2_node).inner
      = [0x10, 0x12] ++ (node_to_bytes c2_node O5mEncoder.new).1 := by decide

/-! ## Claim C6: author information in the meta block -/

/-- Node with a present version and present author information. -/
def c6_node : Node :=
  { id := 64, coordinate := { lat := -65, lon := 4 },
    meta := { tags := [], version := some 1,
              author := some { created := 1000, change_set := 42, uid := 1020,
                               user := [0x4A, 0x6F, 0x68, 0x6E] } } }

/-- C6: the claim states that for a present version and present author the
meta block carries the delta timestamp, delta changeset and an interned
user token; the source always writes the single zero byte in the timestamp
position and never reads the author (`user_to_bytes` is never called), so
the encoded node is just id, version, 0x00, lon, lat and the string table
stays empty. -/
theorem C6_author_information_dropped :
    (node_to_bytes c6_node O5mEncoder.new).1 = [0x80, 0x01, 0x01, 0x00, 0x08, 0x81, 0x01]
    ∧ (node_to_bytes c6_node O5mEncoder.new).2.string_table = [] := by decide

/-! ## Claim C7: relation member encoding -/

/-- Two way members that carry the identical role "outer". -/
def c7_members : List RelationMember :=
  [RelationMember.Way 4 [0x6F, 0x75, 0x74, 0x65, 0x72],
   RelationMember.Way 8 [0x6F, 0x75, 0x74, 0x65, 0x72]]

/-- C7, counterexample: the claim states that a repeated member role token
is emitted as a back-reference; the source writes the role token literally
both times (the predicted stream with the back-reference 0x01 for the
second member differs from the actual one) and the string table stays
empty. -/
theorem C7_role_reference_counterexample :
    (rel_members_to_bytes c7_members O5mEncoder.new).1
      = [0x08, 0x00, 0x31, 0x6F, 0x75, 0x74, 0x65, 0x72, 0x00,
         0x08, 0x00, 0x31, 0x6F, 0x75, 0x74, 0x65, 0x72, 0x00]
    ∧ (rel_members_to_bytes c7_members O5mEncoder.new).2.string_table = []
    ∧ (rel_members_to_bytes c7_members O5mEncoder.new).1
      ≠ [0x08, 0x00, 0x31, 0x6F, 0x75, 0x74, 0x65, 0x72, 0x00, 0x08, 0x01] := by decide

/-- C7, amended: each member entry is the member id delta-encoded against
the kind-specific running category (RelNodeRef / RelWayRef / RelRelRef,
three mutually independent deltas), followed by the role token `0x00
type_digit role 0x00` with type digit "0"/"1"/"2" — written literally: the
source never passes role tokens through the string reference table, so a
repeated role token is repeated literally, and encoding members leaves the
string table unchanged. -/
theorem C7_member_encoding_amended :
    (∀ (ms : List RelationMember) (e : O5mEncoder),
      (rel_members_to_bytes ms e).2.string_table = e.string_table)
    ∧ (∀ (id : Int) (role : List Nat) (e : O5mEncoder),
        rel_members_to_bytes [RelationMember.Node id role] e
          = (varint_to_bytes (id - e.delta.relNodeRef) ++ [0x00] ++ [0x30] ++ role ++ [0x00],
             { e with delta := { e.delta with relNodeRef := id } }))
    ∧ (∀ (id : Int) (role : List Nat) (e : O5mEncoder),
        rel_members_to_bytes [RelationMember.Way id role] e
          = (varint_to_bytes (id - e.delta.relWayRef) ++ [0x00] ++ [0x31] ++ role ++ [0x00],
             { e with delta := { e.delta with relWayRef := id } }))
    ∧ (∀ (id : Int) (role : List Nat) (e : O5mEncoder),
        rel_members_to_bytes [RelationMember.Relation id role] e
          = (varint_to_bytes (id - e.delta.relRelRef) ++ [0x00] ++ [0x32] ++ role ++ [0x00],
             { e with delta := { e.delta with relRelRef := id } }))
    ∧ (∀ (m : RelationMember) (ms : List RelationMember) (e : O5mEncoder),
        rel_members_to_bytes (m :: ms) e
          = ((rel_members_to_bytes [m] e).1
               ++ (rel_members_to_bytes ms (rel_members_to_bytes [m] e).2).1,
             (rel_members_to_bytes ms (rel_members_to_bytes [m] e).2).2)) := by
  refine ⟨?_, ?_, ?_, ?_, ?_⟩
  · intro ms
    induction ms with
    | nil => intro e; rfl
    | cons m ms ih =>
      intro e
      cases m <;>
        simp [rel_members_to_bytes, delta_rel_member, DeltaState.encode, DeltaState.set, ih]
  · intro id role e
    simp [rel_members_to_bytes, delta_rel_member, DeltaState.encode, DeltaState.get,
      DeltaState.set, member_type, RelationMember.role]
  · intro id role e
    simp [rel_members_to_bytes, delta_rel_member, DeltaState.encode, DeltaState.get,
      DeltaState.set, member_type, RelationMember.role]
  · intro id role e
    simp [rel_members_to_bytes, delta_rel_member, DeltaState.encode, DeltaState.get,
      DeltaState.set, member_type, RelationMember.role]
  · intro m ms e
    cases m <;> simp [rel_members_to_bytes, List.append_assoc]

/-! ## Claim C5: the 250-byte length rule -/

/-- Username of 260 'a' bytes, formatting to a 265-byte user record. -/
def long_username : List Nat := List.replicate 260 0x61

/-- C5, counterexample: the claim states that a user record whose formatted
byte string exceeds 250 bytes is never replaced by a back-reference; the
source applies no length check to user records, so the second occurrence of
a 265-byte user record is emitted as the back-reference 0x01. -/
theorem C5_long_user_reference_counterexample :
    ([0x00] ++ uvarint_to_bytes 1020 ++ [0x00] ++ long_username ++ [0x00]).length = 265
    ∧ (user_to_bytes 1020 long_username
        (user_to_bytes 1020 long_username O5mEncoder.new).2).1 = [0x01] := by decide

/-- C5, amended: a tag pair is kept out of the string reference table
exactly when `key.len() + value.len()` exceeds 250 (so a formatted token of
up to 253 bytes is still interned): such a pair is returned verbatim with
the table untouched; user records are interned unconditionally — no length
check is applied to them, whatever their size. -/
theorem C5_length_rule_amended (e : O5mEncoder) (key value username : List Nat) (uid : Nat)
    (hlen : 250 < key.length + value.length)
    (hmem : ([0x00] ++ uvarint_to_bytes uid ++ [0x00] ++ username ++ [0x00]) ∉ e.string_table) :
    string_pair_to_bytes key value e = ([0x00] ++ key ++ [0x00] ++ value ++ [0x00], e)
    ∧ (user_to_bytes uid username e).1
        = [0x00] ++ uvarint_to_bytes uid ++ [0x00] ++ username ++ [0x00]
    ∧ (user_to_bytes uid username e).2.string_table
        = ([0x00] ++ uvarint_to_bytes uid ++ [0x00] ++ username ++ [0x00]) :: e.string_table := by
  refine ⟨?_, ?_, ?_⟩
  · simp [string_pair_to_bytes, hlen]
  · show (string_reference_table
      ([0x00] ++ uvarint_to_bytes uid ++ [0x00] ++ username ++ [0x00]) e).1 = _
    rw [string_reference_table_insert _ _ hmem]
  · show (string_reference_table
      ([0x00] ++ uvarint_to_bytes uid ++ [0x00] ++ username ++ [0x00]) e).2.string_table = _
    rw [string_reference_table_insert _ _ hmem]

/-- C5 witness: the amended rule applied to a 251-byte key with empty value
and to the 265-byte user record on a fresh encoder. -/
theorem C5_length_rule_amended_witness :
    string_pair_to_bytes (List.replicate 251 0x61) [] O5mEncoder.new
      = ([0x00] ++ List.replicate 251 0x61 ++ [0x00] ++ [] ++ [0x00], O5mEncoder.new)
    ∧ (user_to_bytes 1020 long_username O5mEncoder.new).1
        = [0x00] ++ uvarint_to_bytes 1020 ++ [0x00] ++ long_username ++ [0x00]
    ∧ (user_to_bytes 1020 long_username O5mEncoder.new).2.string_table
        = ([0x00] ++ uvarint_to_bytes 1020 ++ [0x00] ++ long_username ++ [0x00])
          :: O5mEncoder.new.string_table :=
  C5_length_rule_amended O5mEncoder.new (List.replicate 251 0x61) [] long_username 1020
    (by decide) (by decide)

/-! ## Claim C4: the 15000-entry cap -/

/-- Fold interning a list of byte strings one after the other. -/
def intern_all : List (List Nat) → O5mEncoder → O5mEncoder
  | [], e => e
  | s :: ss, e => intern_all ss (string_reference_table s e).2

/-- Pairwise distinct two-byte strings, far below the 250-byte limit. -/
def fresh_strings (n : Nat) : List (List Nat) :=
  (List.range n).map (fun i => [i / 256, i % 256])

lemma intern_all_grows : ∀ (ss : List (List Nat)) (e : O5mEncoder),
    ss.Nodup → (∀ s ∈ ss, s ∉ e.string_table) →
    (intern_all ss e).string_table.length = ss.length + e.string_table.length
    ∧ ∀ t ∈ (intern_all ss e).string_table, t ∈ ss ∨ t ∈ e.string_table := by
  intro ss
  induction ss with
  | nil => intro e _ _; exact ⟨by simp [intern_all], fun t ht => Or.inr ht⟩
  | cons s ss ih =>
    intro e hnodup hfresh
    have hs : s ∉ e.string_table := hfresh s (by simp)
    have hstep : (string_reference_table s e).2
        = { e with string_table := s :: e.string_table } := by
      rw [string_reference_table_insert s e hs]
    have hnodup' : ss.Nodup := (List.nodup_cons.mp hnodup).2
    have hsne : s ∉ ss := (List.nodup_cons.mp hnodup).1
    have hfresh' : ∀ t ∈ ss, t ∉ ({ e with string_table := s :: e.string_table } :
        O5mEncoder).string_table := by
      intro t ht
      simp only [List.mem_cons, not_or]
      exact ⟨fun hv => hsne (hv ▸ ht), hfresh t (by simp [ht])⟩
    have ihh := ih { e with string_table := s :: e.string_table } hnodup' hfresh'
    constructor
    · simp only [intern_all, hstep]
      rw [ihh.1]
      simp [List.length_cons]
      omega
    · intro t ht
      simp only [intern_all, hstep] at ht
      rcases ihh.2 t ht with h | h
      · exact Or.inl (by simp [h])
      · simp only [List.mem_cons] at h
        rcases h with h | h
        · exact Or.inl (by simp [h])
        · exact Or.inr h

lemma fresh_strings_nodup (n : Nat) : (fresh_strings n).Nodup := by
  apply List.Nodup.map
  · intro a b h
    simp only [List.cons.injEq, and_true] at h
    omega
  · exact List.nodup_range _

/-- C4: the claim states the string reference table never holds more than
15000 entries, evicting the oldest once the cap is reached; the source's
`string_reference_table` never evicts (the 15000 limit is an unimplemented
`TODO`), so interning 15001 distinct two-byte strings (each far below the
250-byte limit) leaves 15001 entries in the table. -/
theorem C4_table_cap_violated :
    15000 < (intern_all (fresh_strings 15001) O5mEncoder.new).string_table.length
    ∧ (intern_all (fresh_strings 15001) O5mEncoder.new).string_table.length = 15001
    ∧ ((fresh_strings 15001).all fun s => decide (s.length ≤ 250)) = true
    ∧ (fresh_strings 15001).Nodup := by
  have hlen : (intern_all (fresh_strings 15001) O5mEncoder.new).string_table.length
      = 15001 := by
    have h := intern_all_grows (fresh_strings 15001) O5mEncoder.new
      (fresh_strings_nodup 15001) (by simp [O5mEncoder.new])
    rw [h.1]
    simp [fresh_strings, O5mEncoder.new]
  refine ⟨by omega, hlen, ?_, fresh_strings_nodup 15001⟩
  rw [List.all_eq_true]
  intro s hs
  simp only [fresh_strings, List.mem_map] at hs
  rcases hs with ⟨i, _, hi⟩
  simp [← hi]

/-! ## Claim C3: varint encodings -/

/-- Spec-side value of a little-endian base-128 digit list (each byte
contributes its low 7 bits). -/
def decode_base128 (l : List Nat) : Nat :=
  l.foldr (fun b acc => b % 0x80 + 0x80 * acc) 0

/-- Spec-side well-formedness of an unsigned varint byte list: the high
(continuation) bit is set on every byte except the last, which is a nonzero
base-128 digit. -/
def continuation_ok : List Nat → Prop
  | [] => True
  | [b] => 0 < b ∧ b < 0x80
  | b :: l => (0x80 ≤ b ∧ b < 0x100) ∧ continuation_ok l

/-- Spec-side magnitude of a signed varint input: a negative value is
pre-transformed to `-value - 1`. -/
def magOf (v : Int) : Nat := if v < 0 then (-v - 1).toNat else v.toNat

/-- Spec-side sign bit of a signed varint input. -/
def signOf (v : Int) : Nat := if v < 0 then 1 else 0

/-- Spec-side form of the signed varint: the first byte packs the sign into
its lowest bit and 6 magnitude bits above it, the remaining shifted
magnitude follows with the unsigned 7-bit scheme (empty when the magnitude
fits the 6 bits). -/
def varint_spec_form (v : Int) : List Nat :=
  if 0x3F < magOf v then
    (2 * (magOf v % 0x40) + signOf v + 0x80) :: uvarint_to_bytes (magOf v / 0x40)
  else
    [2 * (magOf v % 0x40) + signOf v]

lemma decode_uvarint (v : Nat) : decode_base128 (uvarint_to_bytes v) = v := by
  induction v using Nat.strong_induction_on with
  | _ v ih =>
    rw [uvarint_unfold]
    split
    · next hv =>
      have hlt : v >>> 7 < v := shiftRight_seven_lt v (by omega)
      have h127 : v &&& 0x7F = v % 128 := and_0x7F_eq_mod v
      have hb : v &&& 0x7F < 128 := by omega
      simp only [decode_base128, List.foldr_cons]
      rw [lor_lt_128_or_128 _ hb]
      have hrest : (uvarint_to_bytes (v >>> 7)).foldr
          (fun b acc => b % 0x80 + 0x80 * acc) 0 = v >>> 7 := ih _ hlt
      rw [hrest]
      rw [Nat.shiftRight_eq_div_pow]
      norm_num
      omega
    · next hv =>
      split
      · simp only [decode_base128, List.foldr_cons, List.foldr_nil]
        omega
      · simp only [decode_base128, List.foldr_nil]
        omega

lemma continuation_uvarint (v : Nat) : continuation_ok (uvarint_to_bytes v) := by
  induction v using Nat.strong_induction_on with
  | _ v ih =>
    rw [uvarint_unfold]
    split
    · next hv =>
      have hlt : v >>> 7 < v := shiftRight_seven_lt v (by omega)
      have hpos : 0 < v >>> 7 := by
        rw [Nat.shiftRight_eq_div_pow]
        norm_num
        omega
      have h127 : v &&& 0x7F = v % 128 := and_0x7F_eq_mod v
      have hb : v &&& 0x7F < 128 := by omega
      rcases hrest : uvarint_to_bytes (v >>> 7) with _ | ⟨b, l⟩
      · exact absurd hrest (uvarint_ne_nil _ hpos)
      · show continuation_ok (((v &&& 0x7F) ||| 0x80) :: b :: l)
        refine ⟨?_, ?_⟩
        · rw [lor_lt_128_or_128 _ hb]; omega
        · rw [← hrest]; exact ih _ hlt
    · next hv =>
      split
      · next h0 => exact ⟨h0, by omega⟩
      · trivial

lemma lor_two_mul_small : ∀ a < 64, ∀ s < 2, (2 * a) ||| s = 2 * a + s := by decide

lemma varint_eq_spec_form (v : Int) : varint_to_bytes v = varint_spec_form v := by
  unfold varint_to_bytes varint_spec_form
  have hsign : (if v < 0 then (0x01 : Nat) else 0x00) = signOf v := by
    simp [signOf]
  have hmag : (if v < 0 then (-v - 1).toNat else v.toNat) = magOf v := by
    simp [magOf]
  simp only [hsign, hmag]
  have hslt : signOf v < 2 := by unfold signOf; split <;> omega
  have hls : ((magOf v <<< 1) &&& 0x7F) ||| signOf v = 2 * (magOf v % 0x40) + signOf v := by
    rw [Nat.shiftLeft_eq, and_0x7F_eq_mod]
    have h2 : magOf v * 2 ^ 1 % 128 = 2 * (magOf v % 64) := by omega
    rw [h2]
    exact lor_two_mul_small _ (Nat.mod_lt _ (by norm_num)) _ hslt
  rw [hls]
  split
  · have hb : 2 * (magOf v % 0x40) + signOf v < 128 := by
      have := Nat.mod_lt (magOf v) (y := 0x40) (by norm_num)
      omega
    rw [lor_lt_128_or_128 _ hb, Nat.shiftRight_eq_div_pow]
  · rfl

/-- C3: `uvarint_to_bytes` maps 0 to the empty byte sequence and every
positive value to its little-endian base-128 digits with the continuation
bit set on every byte but the last; `varint_to_bytes` always emits at least
one byte, stores the sign in the lowest bit of the first byte, pre-transforms
a negative value to the magnitude `-value - 1`, packs 6 magnitude bits into
the first byte and encodes the remaining shifted magnitude with the
unsigned scheme. -/
theorem C3_varint_encoding :
    uvarint_to_bytes 0 = []
    ∧ (∀ v : Nat, decode_base128 (uvarint_to_bytes v) = v)
    ∧ (∀ v : Nat, continuation_ok (uvarint_to_bytes v))
    ∧ (∀ v : Int, 1 ≤ (varint_to_bytes v).length)
    ∧ (∀ v : Int, (varint_to_bytes v).headI % 2 = signOf v)
    ∧ (∀ v : Int, varint_to_bytes v = varint_spec_form v) := by
  refine ⟨rfl, decode_uvarint, continuation_uvarint, ?_, ?_, varint_eq_spec_form⟩
  · intro v
    rw [varint_eq_spec_form, varint_spec_form]
    split <;> simp
  · intro v
    have hslt : signOf v < 2 := by unfold signOf; split <;> omega
    rw [varint_eq_spec_form, varint_spec_form]
    split <;> simp only [List.headI] <;> omega

/-! ## Claim C8: coordinate deltas -/

/-- C8, counterexample: the claim states the written longitude value is the
exact integer difference even when it does not fit in i32; encoding
longitude -2000000000 and then 2000000000 (both in the i32 range) makes the
source emit the wrapped value -294967296 instead of the exact difference
4000000000. -/
theorem C8_delta_overflow_counterexample :
    (delta_coordinate (delta_coordinate O5mEncoder.new { lat := 0, lon := -2000000000 }).2
        { lat := 0, lon := 2000000000 }).1.lon = -294967296
    ∧ ((2000000000 : Int) - (-2000000000) = 4000000000)
    ∧ ((-294967296 : Int) ≠ 4000000000) := by decide

/-- C8, amended: the longitude and latitude values written for a node are
the integer differences against the previous Lon/Lat running values reduced
into i32 by the two's-complement wrap of the source's `as i32` cast — exact
whenever the difference fits in i32 — and each encode stores the current
absolute value as the new running value, leaving all other categories
untouched. -/
theorem C8_coordinate_delta_amended (e : O5mEncoder) (node : Node) :
    (delta_coordinate e node.coordinate).1
      = { lat := wrapI32 (node.coordinate.lat - e.delta.lat),
          lon := wrapI32 (node.coordinate.lon - e.delta.lon) }
    ∧ (delta_coordinate e node.coordinate).2
      = { e with delta := { e.delta with
            lat := node.coordinate.lat,
            lon := node.coordinate.lon } }
    ∧ (node_to_bytes node e).1
      = varint_to_bytes (node.id - e.delta.id)
        ++ uvarint_to_bytes (node.meta.version.getD 0)
        ++ [0x00]
        ++ varint_to_bytes (wrapI32 (node.coordinate.lon - e.delta.lon))
        ++ varint_to_bytes (wrapI32 (node.coordinate.lat - e.delta.lat))
        ++ (string_pairs_to_bytes node.meta.tags
              { e with delta := { e.delta with
                  id := node.id,
                  lat := node.coordinate.lat,
                  lon := node.coordinate.lon } }).1
    ∧ (∀ d : Int, -0x80000000 ≤ d → d < 0x80000000 → wrapI32 d = d) := by
  refine ⟨rfl, rfl, rfl, ?_⟩
  intro d h1 h2
  unfold wrapI32
  omega

/-- C8 witness: the amended statement at a fresh encoder and a concrete
node, with the wrap hypotheses discharged at the in-range difference 4. -/
theorem C8_coordinate_delta_amended_witness :
    (delta_coordinate O5mEncoder.new c2_node.coordinate).1
      = { lat := wrapI32 (c2_node.coordinate.lat - O5mEncoder.new.delta.lat),
          lon := wrapI32 (c2_node.coordinate.lon - O5mEncoder.new.delta.lon) }
    ∧ (-0x80000000 ≤ (4 : Int) ∧ (4 : Int) < 0x80000000 ∧ wrapI32 4 = 4) :=
  ⟨(C8_coordinate_delta_amended O5mEncoder.new c2_node).1,
   by decide, by decide,
   (C8_coordinate_delta_amended O5mEncoder.new c2_node).2.2.2 4 (by decide) (by decide)⟩

/-! ## Claim C10: token discrimination -/

/-- Spec-side description of a token produced by the encoder: either a
null-framed literal (first byte 0x00) or the unsigned varint of a 1-based
index into the table at the time of encoding, whose first byte is nonzero. -/
def token_ok (table : List (List Nat)) (tok : List Nat) : Prop :=
  (tok ≠ [] ∧ tok.headI = 0x00)
  ∨ (tok.headI ≠ 0x00 ∧ ∃ idx, 1 ≤ idx ∧ idx ≤ table.length ∧ tok = uvarint_to_bytes idx)

lemma string_reference_table_token (bytes : List Nat) (e : O5mEncoder)
    (hne : bytes ≠ []) (hhead : bytes.headI = 0x00) :
    token_ok e.string_table (string_reference_table bytes e).1 := by
  rcases hpos : position bytes e.string_table with _ | pos
  · simp only [string_reference_table, hpos]
    exact Or.inl ⟨hne, hhead⟩
  · simp only [string_reference_table, hpos]
    refine Or.inr ⟨?_, 1 + pos, by omega, ?_, rfl⟩
    · have := uvarint_headI_ge_one (1 + pos) (by omega)
      omega
    · have := position_lt_length bytes e.string_table pos hpos
      omega

/-- C10: every token produced by `string_pair_to_bytes` or `user_to_bytes`
either begins with the byte 0x00 (a literal) or is the unsigned varint of a
1-based table index whose first byte is nonzero — so the first byte alone
distinguishes the two and a reference index of 0 is never emitted. -/
theorem C10_token_first_byte (e : O5mEncoder) (key value username : List Nat) (uid : Nat) :
    token_ok e.string_table (string_pair_to_bytes key value e).1
    ∧ token_ok e.string_table (user_to_bytes uid username e).1 := by
  constructor
  · unfold string_pair_to_bytes
    split
    · exact Or.inl ⟨by simp, by simp⟩
    · exact string_reference_table_token _ _ (by simp) (by simp)
  · exact string_reference_table_token _ _ (by simp) (by simp)

/-! ## Claim C9: format selection -/

lemma fromStr_cases (s : String) :
    FileFormat.fromStr s
      = if s = "osm" then some FileFormat.Xml
        else if s = "o5m" then some FileFormat.O5m else none := by
  unfold FileFormat.fromStr
  split <;> simp_all

lemma try_from_cases (s : String) :
    FileFormat.try_from s
      = if s = "osm" then .ok FileFormat.Xml
        else if s = "o5m" then .ok FileFormat.O5m
        else .error ("'" ++ rustDebug s ++ "' is not a valid osm file format") := by
  unfold FileFormat.try_from
  rw [fromStr_cases]
  by_cases h1 : s = "osm" <;> by_cases h2 : s = "o5m" <;> simp [h1, h2]

/-- C9: converting a string succeeds exactly for "osm" (the XML format) and
"o5m" (the O5M format), failing with a descriptive error message on every
other string; converting a path applies the same rule to its extension and
fails with a descriptive unknown-format error when the extension is
missing.  All selection functions are pure: no I/O is involved. -/
theorem C9_format_selection :
    (∀ s : String, FileFormat.fromStr s = some FileFormat.Xml ↔ s = "osm")
    ∧ (∀ s : String, FileFormat.fromStr s = some FileFormat.O5m ↔ s = "o5m")
    ∧ (∀ s : String, FileFormat.try_from s = .ok FileFormat.Xml ↔ s = "osm")
    ∧ (∀ s : String, FileFormat.try_from s = .ok FileFormat.O5m ↔ s = "o5m")
    ∧ (∀ s : String, s ≠ "osm" → s ≠ "o5m" →
        FileFormat.try_from s
          = .error ("'" ++ rustDebug s ++ "' is not a valid osm file format"))
    ∧ (∀ (p : PathModel) (ext : String), p.extension = some ext →
        FileFormat.try_from_path p = FileFormat.try_from ext)
    ∧ (∀ p : PathModel, p.extension = none →
        FileFormat.try_from_path p
          = .error ("Unknown file format of '" ++ p.display ++ "'")) := by
  refine ⟨?_, ?_, ?_, ?_, ?_, ?_, ?_⟩
  · intro s
    rw [fromStr_cases]
    by_cases h1 : s = "osm" <;> by_cases h2 : s = "o5m" <;> simp_all
  · intro s
    rw [fromStr_cases]
    by_cases h1 : s = "osm" <;> by_cases h2 : s = "o5m" <;> simp_all
  · intro s
    rw [try_from_cases]
    by_cases h1 : s = "osm" <;> by_cases h2 : s = "o5m" <;> simp_all
  · intro s
    rw [try_from_cases]
    by_cases h1 : s = "osm" <;> by_cases h2 : s = "o5m" <;> simp_all
  · intro s h1 h2
    rw [try_from_cases]
    simp [h1, h2]
  · intro p ext h
    unfold FileFormat.try_from_path
    rw [h]
  · intro p h
    unfold FileFormat.try_from_path
    rw [h]

/-- C9 witness: the selection rule evaluated at "osm", "txt" and concrete
paths with and without an extension. -/
theorem C9_format_selection_witness :
    FileFormat.fromStr "osm" = some FileFormat.Xml
    ∧ FileFormat.try_from "txt"
        = .error ("'" ++ rustDebug "txt" ++ "' is not a valid osm file format")
    ∧ FileFormat.try_from_path { extension := some "o5m", display := "map.o5m" }
        = FileFormat.try_from "o5m"
    ∧ FileFormat.try_from_path { extension := none, display := "map" }
        = .error ("Unknown file format of '" ++ "map" ++ "'") :=
  ⟨(C9_format_selection.1 "osm").mpr rfl,
   C9_format_selection.2.2.2.2.1 "txt" (by decide) (by decide),
   C9_format_selection.2.2.2.2.2.1 { extension := some "o5m", display := "map.o5m" } "o5m" rfl,
   C9_format_selection.2.2.2.2.2.2 { extension := none, display := "map" } rfl⟩

/-! ## Claim C1: shape of the whole written stream -/

lemma getLast?_append_singleton (l : List α) (a : α) : (l ++ [a]).getLast? = some a :=
  List.getLast?_concat l

/-- C1: for every map, `write` emits, in order: the reset byte 0xFF, the
header marker 0xE0 with its fixed payload, the bounding-box record exactly
when the map has a boundary, then for each of nodes, ways and relations —
also when empty — a reset byte (with the encoder state restarted fresh)
followed by one type-tagged length-prefixed frame per entity, and finally
the EOF byte 0xFE, which ends the stream. -/
theorem C1_write_stream_shape (osm : Osm) :
    O5mWriter.write osm
      = [O5M_RESET, O5M_HEADER] ++ O5M_HEADER_DATA
        ++ (osm.boundary.elim [] bounding_box_record)
        ++ [O5M_RESET] ++ (frames_of node_to_bytes O5M_NODE osm.nodes O5mEncoder.new).1
        ++ [O5M_RESET] ++ (frames_of way_to_bytes O5M_WAY osm.ways O5mEncoder.new).1
        ++ [O5M_RESET]
        ++ (frames_of relation_to_bytes O5M_RELATION osm.relations O5mEncoder.new).1
        ++ [O5M_EOF]
    ∧ (osm.boundary.elim [] bounding_box_record = [] ↔ osm.boundary = none)
    ∧ (O5mWriter.write osm).getLast? = some O5M_EOF := by
  have hn := foldl_write_frames node_to_bytes O5M_NODE O5mWriter.write_node
    (fun w x => rfl)
  have hw := foldl_write_frames way_to_bytes O5M_WAY O5mWriter.write_way
    (fun w x => rfl)
  have hr := foldl_write_frames relation_to_bytes O5M_RELATION O5mWriter.write_relation
    (fun w x => rfl)
  have hmain : O5mWriter.write osm
      = [O5M_RESET, O5M_HEADER] ++ O5M_HEADER_DATA
        ++ (osm.boundary.elim [] bounding_box_record)
        ++ [O5M_RESET] ++ (frames_of node_to_bytes O5M_NODE osm.nodes O5mEncoder.new).1
        ++ [O5M_RESET] ++ (frames_of way_to_bytes O5M_WAY osm.ways O5mEncoder.new).1
        ++ [O5M_RESET]
        ++ (frames_of relation_to_bytes O5M_RELATION osm.relations O5mEncoder.new).1
        ++ [O5M_EOF] := by
    cases hb : osm.boundary with
    | none =>
      simp [O5mWriter.write, hb, hn, hw, hr, O5mWriter.reset, O5mWriter.new,
        O5mEncoder.reset, O5mEncoder.new, List.append_assoc]
    | some boundary =>
      simp [O5mWriter.write, hb, hn, hw, hr, O5mWriter.reset, O5mWriter.new,
        O5mEncoder.reset, O5mEncoder.new, O5mWriter.write_bounding_box,
        bounding_box_record, List.append_assoc]
  refine ⟨hmain, ?_, ?_⟩
  · cases hb : osm.boundary with
    | none => simp [Option.elim]
    | some boundary => simp [Option.elim, bounding_box_record]
  · rw [hmain]
    exact getLast?_append_singleton _ _

end VadeenOsm
